import Mathlib

/-!
Verification of the OpenXcom script engine header (`src/Engine/Script.h`).

The development shallowly embeds the data model and operations of the
script engine: the argument-kind bit algebra (`ArgEnum` values as `Nat`,
all below 256 as in the `Uint8` source enums), the compatibility scorer
`ArgCompatible`, containers and the events execution order, the worker
register file (`Nat → Nat` byte map), the C++ type-level flag computation
`getArgType`, tagged values (`ScriptValueData`), `ScriptRef` comparison
and `substr`.
-/

namespace OpenXcom

/-! ### Argument kind algebra (`ArgSpecEnum`, `ArgEnum`, Script.h lines 97-205)

The C++ enums are `Uint8` valued; every value the engine produces fits in
8 bits, so they are embedded as plain `Nat` constants and bit operations.
-/

def ArgSpecNone : Nat := 0x0
def ArgSpecReg : Nat := 0x1
def ArgSpecVar : Nat := 0x3
def ArgSpecPtr : Nat := 0x4
def ArgSpecPtrE : Nat := 0xC
def ArgSpecSize : Nat := 0x10

def ArgInvalid : Nat := ArgSpecSize * 0
def ArgNull : Nat := ArgSpecSize * 1
def ArgInt : Nat := ArgSpecSize * 2
def ArgLabel : Nat := ArgSpecSize * 3
def ArgMax : Nat := ArgSpecSize * 4

/-- Base version of argument type: `arg & ~(ArgSpecSize - 1)` on `Uint8`,
i.e. masking with `0xF0`. -/
def ArgBase (arg : Nat) : Nat := arg &&& 0xF0

/-- Specialized version of argument type. -/
def ArgSpecAdd (arg : Nat) (spec : Nat) : Nat :=
  if ArgBase arg ≠ ArgInvalid then arg ||| spec else arg

/-- Remove specialization from argument type (`arg & ~spec` on `Uint8`). -/
def ArgSpecRemove (arg : Nat) (spec : Nat) : Nat :=
  if ArgBase arg ≠ ArgInvalid then arg &&& (0xFF ^^^ spec) else arg

/-- Test if argument type is register (readonly or writeable). -/
def ArgIsReg (arg : Nat) : Bool := arg &&& ArgSpecReg == ArgSpecReg

/-- Test if argument type is variable (writeable register). -/
def ArgIsVar (arg : Nat) : Bool := arg &&& ArgSpecVar == ArgSpecVar

/-- Test if argument type is pointer. -/
def ArgIsPtr (arg : Nat) : Bool := arg &&& ArgSpecPtr == ArgSpecPtr

/-- Test if argument type is editable pointer. -/
def ArgIsPtrE (arg : Nat) : Bool := arg &&& ArgSpecPtrE == ArgSpecPtrE

/-- Compatibility between operation argument type and variable type,
translated clause by clause from `ArgCompatible` in Script.h
(lines 195-205).  Note the sixth clause of the source tests
`ArgIsPtrE(argType) && ArgIsPtr(varType)`. -/
def ArgCompatible (argType varType : Nat) (overloadSize : Nat) : Int :=
  if argType = ArgInvalid then 0
  else if ArgIsVar argType && (argType != varType) then 0
  else if ArgBase argType != ArgBase varType then 0
  else if ArgIsReg argType != ArgIsReg varType then 0
  else if ArgIsPtr argType != ArgIsPtr varType then 0
  else if ArgIsPtrE argType && ArgIsPtr varType then 0
  else 255 - (if ArgIsPtrE argType != ArgIsPtrE varType then 128 else 0)
           - (if ArgIsVar argType != ArgIsVar varType then 64 else 0)
           - (if overloadSize > 8 then 8 else (overloadSize : Int))

/-- Compatibility score as the specification states it (spec.md §3): the
sixth clause rejects only when the declared type is an editable pointer
and the supplied one is a non-editable pointer. -/
def ArgCompatibleSpec (argType varType : Nat) (overloadSize : Nat) : Int :=
  if argType = ArgInvalid then 0
  else if ArgIsVar argType && (argType != varType) then 0
  else if ArgBase argType != ArgBase varType then 0
  else if ArgIsReg argType != ArgIsReg varType then 0
  else if ArgIsPtr argType != ArgIsPtr varType then 0
  else if ArgIsPtrE argType && (ArgIsPtr varType && !ArgIsPtrE varType) then 0
  else 255 - (if ArgIsPtrE argType != ArgIsPtrE varType then 128 else 0)
           - (if ArgIsVar argType != ArgIsVar varType then 64 else 0)
           - (if overloadSize > 8 then 8 else (overloadSize : Int))

/-! ### Containers (Script.h lines 236-324)

`ScriptContainerBase` owns a bytecode vector (`std::vector<Uint8> _proc`),
modelled as a list of bytes.  `ScriptContainerEventsBase` adds a non-owning
pointer `_events` into a falsy-terminated array of containers; the pointer
is modelled as `Option` of the remaining array.
-/

structure ScriptContainerBase where
  proc : List Nat
  deriving DecidableEq

/-- Truthiness test (`explicit operator bool`) of `ScriptContainerBase`:
`!_proc.empty()`. -/
def ScriptContainerBase.toBool (c : ScriptContainerBase) : Bool := !c.proc.isEmpty

structure ScriptContainerEventsBase where
  current : ScriptContainerBase
  events : Option (List ScriptContainerBase)
  deriving DecidableEq

/-- Truthiness test (`explicit operator bool`) of `ScriptContainerEventsBase`:
the source returns `true` unconditionally. -/
def ScriptContainerEventsBase.toBool (_ : ScriptContainerEventsBase) : Bool := true

/-! ### Events execution order (Script.h lines 558-588)

The events overload of `ScriptWorker::execute` is modelled by the trace of
worker actions it performs: `set` (copy caller output slots in), `reset`
(restore the read-only slots from the caller argument), `run p` (execute
bytecode `p` via `executeBase`), `get` (copy the writable output slots back
to the caller).
-/

inductive WorkerAction where
  | set
  | reset
  | run (proc : List Nat)
  | get
  deriving DecidableEq

/-- One `while (*ptr) { reset(arg); executeBase(ptr->data()); ++ptr; }` loop
of the events execute overload: consumes containers while truthy, recording
a reset followed by a run for each; returns the recorded actions and the
remaining array (headed by the falsy container that stopped the loop). -/
def runWhileTruthy : List ScriptContainerBase → List WorkerAction × List ScriptContainerBase
  | [] => ([], [])
  | c :: rest =>
    if c.toBool then
      let r := runWhileTruthy rest
      ([WorkerAction.reset, WorkerAction.run c.proc] ++ r.1, r.2)
    else
      ([], c :: rest)

/-- Action trace of `ScriptWorker::execute` for `ScriptContainerEvents`:
`set(arg)`; if the events pointer is non-null, run the first
falsy-terminated chain then skip the sentinel (`++ptr`); `reset(arg)` and
run the main script; if the events pointer was non-null, run the second
falsy-terminated chain; finally `get(arg)`. -/
def executeEvents (c : ScriptContainerEventsBase) : List WorkerAction :=
  match c.events with
  | none =>
      [WorkerAction.set]
        ++ [WorkerAction.reset, WorkerAction.run c.current.proc]
        ++ [WorkerAction.get]
  | some arr =>
      let p1 := runWhileTruthy arr
      [WorkerAction.set] ++ p1.1
        ++ [WorkerAction.reset, WorkerAction.run c.current.proc]
        ++ (runWhileTruthy (p1.2.drop 1)).1
        ++ [WorkerAction.get]

/-! ### Worker register file (Script.h lines 402-523, 547-556)

The register file `ScriptRawMemory<ScriptMaxReg> reg` is a byte buffer
addressed by offset; it is modelled as a byte map `Nat → Nat`.  A typed
store `ref<T>(offset) = value` writes the `sizeof(T)` bytes of the value
at the offset; values are modelled by their byte lists, types by their
sizes (the list lengths).
-/

/-- Typed store into the register file: write the byte list `vs` starting
at offset `off`. -/
def writeBytes (reg : Nat → Nat) (off : Nat) : List Nat → (Nat → Nat)
  | [] => reg
  | v :: vs => writeBytes (fun a => if a = off then v else reg a) (off + 1) vs

/-- Typed load from the register file: the `n` bytes starting at `off`. -/
def readBytes (reg : Nat → Nat) (off n : Nat) : List Nat :=
  (List.range n).map fun j => reg (off + j)

/-- The compile-time `ScriptWorkerBase::offset<First, ...>(i)` (lines
457-468), on the list of argument sizes:
`(i > 0 ? sizeof(First) : 0) + (i > 1 ? offset<Rest...>(i - 1) : 0)`. -/
def offsetOf : List Nat → Nat → Nat
  | [], _ => 0
  | s :: rest, i => (if i > 0 then s else 0) + (if i > 1 then offsetOf rest (i - 1) else 0)

/-- `offsetOutput`: total byte size of the output tuple, i.e.
`offset<Args...>(sizeof...(Args))`. -/
def offsetOutput (outSizes : List Nat) : Nat := offsetOf outSizes outSizes.length

/-- `forReg<BaseOffset, SetAllRegs, Args...>`: for each index `I` in order
(the `DummySeq` pack expansion of `forRegImpl`), store tuple element `I`
at `BaseOffset + offset<Args...>(I)`. -/
def forRegSetAll (base : Nat) (args : List (List Nat)) (reg : Nat → Nat) : Nat → Nat :=
  (List.range args.length).foldl
    (fun r i => writeBytes r (base + offsetOf (args.map List.length) i) (args.getD i [])) reg

/-- `ScriptWorkerBase::updateBase<Output>(args...)` (lines 477-483):
`memset(&reg, 0, ScriptMaxReg)` — the whole byte map becomes zero — then
`forReg<offsetOutput(Output), SetAllRegs, Args...>` writes the declared
input values after the output region. -/
def updateBase (outSizes : List Nat) (args : List (List Nat)) : Nat → Nat :=
  forRegSetAll (offsetOutput outSizes) args (fun _ => 0)

/-- `ScriptWorkerBase::set` (lines 485-489): `forReg<0, SetAllRegs, ...>`
copies every caller output-tuple slot value into the register file
starting at offset 0.  A slot is a pair of its `isOutput` flag (whether
the tuple element type is a writable reference) and its value bytes. -/
def setRegs (arg : List (Bool × List Nat)) (reg : Nat → Nat) : Nat → Nat :=
  forRegSetAll 0 (arg.map Prod.snd) reg

/-- `ScriptWorkerBase::get` (lines 490-494): `forReg<0, GetWritableRegs, ...>`
copies, for every output slot, the register bytes at the slot's offset
back into the caller tuple; non-output slots are untouched. -/
def getRegs (reg : Nat → Nat) (arg : List (Bool × List Nat)) : List (Bool × List Nat) :=
  (List.range arg.length).map fun i =>
    let sl := arg.getD i (false, [])
    (sl.1,
      if sl.1 then readBytes reg (offsetOf (arg.map fun s => s.2.length) i) sl.2.length
      else sl.2)

/-- `ScriptWorker::execute` for a plain `ScriptContainer` (lines 547-556):
`set(arg); executeBase(c.data()); get(arg)`.  The parameter `run` is the
semantics of `executeBase` on the register file; the result is the updated
caller argument together with the final register file. -/
def executeContainer (run : List Nat → (Nat → Nat) → (Nat → Nat))
    (c : ScriptContainerBase) (arg : List (Bool × List Nat)) (reg : Nat → Nat) :
    List (Bool × List Nat) × (Nat → Nat) :=
  let reg1 := setRegs arg reg
  let reg2 := run c.proc reg1
  (getRegs reg2 arg, reg2)

/-! ### ScriptRef comparison (Script.h lines 690-788)

For `ScriptRef::compare` the observable content of a ref is the byte
sequence of its range, modelled as `List Nat` (unsigned char values, as
`memcmp` compares them).  Only the sign of `memcmp` is observable in the
source (it feeds `== 0`, `!= 0`, `< 0`), so `memcmpSign` returns the sign.
-/

/-- Sign of `memcmp` over two byte sequences of equal length. -/
def memcmpSign : List Nat → List Nat → Int
  | [], _ => 0
  | _ :: _, [] => 0
  | a :: as, b :: bs => if a < b then -1 else if b < a then 1 else memcmpSign as bs

namespace ScriptRef

/-- `ScriptRef::compare`: equal sizes compare content bytewise, otherwise
the shorter range is smaller. -/
def compare (a b : List Nat) : Int :=
  if a.length = b.length then memcmpSign a b
  else if a.length < b.length then -1 else 1

/-- `ScriptRef::operator==`. -/
def beq (a b : List Nat) : Bool := compare a b == 0

/-- `ScriptRef::operator!=`. -/
def bne (a b : List Nat) : Bool := compare a b != 0

/-- `ScriptRef::operator<`. -/
def lt (a b : List Nat) : Bool := compare a b < 0

end ScriptRef

/-! ### ScriptRef::substr (Script.h lines 723-741)

`substr` computes with the two char pointers `_begin`/`_end`; the pointers
are modelled as addresses (`Nat`).  The default `ScriptRef{ }` has both
pointers null, i.e. address 0.
-/

structure ScriptRefRange where
  b : Nat
  e : Nat
  deriving DecidableEq

/-- Size of the range (`_end - _begin`). -/
def ScriptRefRange.size (r : ScriptRefRange) : Nat := r.e - r.b

/-- `std::string::npos`, the default for the second argument of `substr`. -/
def npos : Nat := 2 ^ 64 - 1

/-- `ScriptRef::substr`, translated branch by branch. -/
def ScriptRefRange.substr (r : ScriptRefRange) (p : Nat) (s : Nat := npos) : ScriptRefRange :=
  let totalSize := r.e - r.b
  if p ≥ totalSize then ScriptRefRange.mk 0 0
  else
    let b := r.b + p
    if s > totalSize - p then ScriptRefRange.mk b r.e
    else ScriptRefRange.mk b (b + s)

/-! ### C++ type-level computation of argument kinds (Script.h lines
353-368, 963-990 and 1020-1034)

`helper::TypeInfoImpl<T>` and `ScriptParserBase::getArgType<T>` compute an
`ArgEnum` from a C++ type.  The C++ types the engine instantiates them
with are modelled by `CppType`: a possibly const-qualified POD value
type, or a pointer to a possibly-const host type (the pointer itself
possibly const), or an lvalue reference to one of those.  Base type
identities are the builtins `int`, `std::nullptr_t` and `ProgPos` plus
host-registered types; the `Uint8` space of `ArgEnum` (steps of
`ArgSpecSize` starting at `ArgMax`) holds at most 12 dynamically
registered base types, so host ids are drawn from `Fin 12` and every
computed enum value stays below 256 as in the source. -/

inductive CppValueTy where
  | int
  | nullptr
  | progPos
  | host (id : Fin 12)
  deriving DecidableEq, Fintype

/-- A non-reference C++ type: a value type or a pointer, each with its
const qualifications. -/
inductive CppObjType where
  | val (base : CppValueTy) (isConst : Bool)
  | ptr (pointee : CppValueTy) (pointeeConst : Bool) (isConst : Bool)
  deriving DecidableEq, Fintype

/-- A possibly-reference C++ type. -/
inductive CppType where
  | obj (t : CppObjType)
  | ref (toObj : CppObjType)
  deriving DecidableEq, Fintype

/-- `std::is_reference<T>::value`. -/
def CppType.isReference : CppType → Bool
  | .obj _ => false
  | .ref _ => true

/-- `std::is_const<T>::value`; a reference type is never const-qualified. -/
def CppType.isConstQ : CppType → Bool
  | .obj (.val _ c) => c
  | .obj (.ptr _ _ c) => c
  | .ref _ => false

/-- `std::decay<T>`: drop reference-ness, then top-level cv. -/
def CppType.decayT : CppType → CppObjType
  | .obj (.val b _) => .val b false
  | .obj (.ptr b pc _) => .ptr b pc false
  | .ref (.val b _) => .val b false
  | .ref (.ptr b pc _) => .ptr b pc false

/-- `std::is_pointer` on a non-reference type. -/
def CppObjType.isPointer : CppObjType → Bool
  | .val _ _ => false
  | .ptr _ _ _ => true

/-- `std::remove_pointer` on a non-reference type; the pointee keeps its
const qualification. -/
def CppObjType.removePointerT : CppObjType → CppObjType
  | .val b c => .val b c
  | .ptr b pc _ => .val b pc

/-- `std::is_const` on a non-reference type. -/
def CppObjType.isConstQ : CppObjType → Bool
  | .val _ c => c
  | .ptr _ _ c => c

/-- `std::decay` on a non-reference type (drop top-level cv). -/
def CppObjType.decayT : CppObjType → CppObjType
  | .val b _ => .val b false
  | .ptr b pc _ => .ptr b pc false

/-- Base type identity of a non-reference type. -/
def CppObjType.baseValue : CppObjType → CppValueTy
  | .val b _ => b
  | .ptr b _ _ => b

namespace TypeInfo

/-- `TypeInfoImpl<T>::t1 = std::decay<T>::type`. -/
def t1 (T : CppType) : CppObjType := T.decayT

/-- `TypeInfoImpl<T>::t2 = std::remove_pointer<t1>::type`. -/
def t2 (T : CppType) : CppObjType := (t1 T).removePointerT

/-- `TypeInfoImpl<T>::t3 = std::decay<t2>::type`. -/
def t3 (T : CppType) : CppObjType := (t2 T).decayT

/-- `isRef = std::is_reference<T>::value`. -/
def isRef (T : CppType) : Bool := T.isReference

/-- `isOutput = isRef && !std::is_const<T>::value` — the source consults
`is_const` of `T` itself, which is false for every reference type. -/
def isOutput (T : CppType) : Bool := isRef T && !T.isConstQ

/-- `isPtr = std::is_pointer<t1>::value`. -/
def isPtr (T : CppType) : Bool := (t1 T).isPointer

/-- `isEditable = isPtr && !std::is_const<t2>::value`. -/
def isEditable (T : CppType) : Bool := isPtr T && !(t2 T).isConstQ

end TypeInfo

/-- `ScriptParserBase::registeTypeImpl<T>` (lines 970-990): `int`,
`std::nullptr_t` and `ProgPos` map to the builtin enum values; every
other type receives the next free value — `ArgMax` advanced by
`ArgSpecSize` per previously registered type
(`registeTypeImplNextValue`), modelled by the registration order `id`. -/
def registeTypeImpl : CppValueTy → Nat
  | .int => ArgInt
  | .nullptr => ArgNull
  | .progPos => ArgLabel
  | .host id => ArgMax + ArgSpecSize * id.val

/-- `ScriptParserBase::getArgType<T>` (lines 1020-1034): accumulate the
spec flags from the type traits and add them to the registered base. -/
def getArgType (T : CppType) : Nat :=
  let spec0 := ArgSpecNone
  let spec1 := if TypeInfo.isRef T then spec0 ||| ArgSpecVar else spec0
  let spec2 := if TypeInfo.isPtr T then spec1 ||| ArgSpecPtr else spec1
  let spec3 := if TypeInfo.isEditable T then spec2 ||| ArgSpecPtrE else spec2
  ArgSpecAdd (registeTypeImpl (TypeInfo.t3 T).baseValue) spec3

/-! ### ScriptValueData (Script.h lines 807-833 and 1105-1166)

A tagged value: the raw bytes stored by the `memcpy` of the templated
copy constructor, the `ArgEnum` tag and the byte count.  `getValue<T>`
either throws (modelled by `Except.error`) or reinterprets the stored
bytes; for a matching tag the reinterpretation re-reads exactly the
stored `sizeof(T)` bytes. -/

structure ScriptValueData where
  data : List Nat
  type : Nat
  size : Nat
  deriving DecidableEq

/-- The templated copy constructor `ScriptValueData(const T& t)` (lines
1108-1115): tag with `getArgType<T>()`, record `sizeof(T)` and memcpy
the value's bytes. -/
def ScriptValueData.mkFrom (T : CppType) (bytes : List Nat) : ScriptValueData :=
  { data := bytes, type := getArgType T, size := bytes.length }

/-- `ScriptValueData::isValueType<T>` (lines 1149-1153). -/
def ScriptValueData.isValueType (T : CppType) (v : ScriptValueData) : Bool :=
  v.type == getArgType T

/-- `ScriptValueData::getValue<T>` (lines 1158-1166): throw
`"Invalid cast of value"` unless the stored tag equals `getArgType<T>()`,
otherwise reinterpret the stored bytes. -/
def ScriptValueData.getValue (T : CppType) (v : ScriptValueData) :
    Except String (List Nat) :=
  if !(v.isValueType T) then Except.error "Invalid cast of value"
  else Except.ok v.data

end OpenXcom

namespace OpenXcom

/-- For equal-length byte sequences, the `memcmp` sign is zero exactly on
identical sequences. -/
theorem memcmpSign_eq_zero_iff :
    ∀ a b : List Nat, a.length = b.length → (memcmpSign a b = 0 ↔ a = b) := by
  intro a
  induction a with
  | nil =>
    intro b h
    cases b with
    | nil => simp [memcmpSign]
    | cons x xs => simp at h
  | cons x xs ih =>
    intro b h
    cases b with
    | nil => simp at h
    | cons y ys =>
      simp only [List.length_cons, Nat.succ.injEq] at h
      by_cases hxy : x < y
      · simp [memcmpSign, hxy]
        omega
      · by_cases hyx : y < x
        · simp [memcmpSign, hxy, hyx]
          omega
        · have hxyeq : x = y := by omega
          simp [memcmpSign, hxy, hyx, hxyeq, ih ys h]

/-- `offset` at index 0 is 0. -/
theorem offsetOf_zero (sizes : List Nat) : offsetOf sizes 0 = 0 := by
  cases sizes <;> simp [offsetOf]

/-- Unfolding `offset` at a successor index over a cons of sizes. -/
theorem offsetOf_succ_cons (s : Nat) (rest : List Nat) (i : Nat) :
    offsetOf (s :: rest) (i + 1) = s + offsetOf rest i := by
  cases i with
  | zero => simp [offsetOf, offsetOf_zero]
  | succ n => simp [offsetOf]

/-- Offsets are contiguous: the next offset is the current one plus the
current size. -/
theorem offsetOf_succ (sizes : List Nat) (i : Nat) (h : i < sizes.length) :
    offsetOf sizes (i + 1) = offsetOf sizes i + sizes.getD i 0 := by
  induction sizes generalizing i with
  | nil => simp at h
  | cons s rest ih =>
    cases i with
    | zero => simp [offsetOf_succ_cons, offsetOf_zero, offsetOf]
    | succ n =>
      have hn : n < rest.length := by simpa using h
      rw [offsetOf_succ_cons, offsetOf_succ_cons, ih n hn]
      simp [List.getD, Nat.add_assoc]

/-- A byte-list store leaves addresses outside its interval unchanged. -/
theorem writeBytes_out (vs : List Nat) (reg : Nat → Nat) (off a : Nat)
    (h : a < off ∨ off + vs.length ≤ a) :
    writeBytes reg off vs a = reg a := by
  induction vs generalizing reg off with
  | nil => rfl
  | cons v vs ih =>
    have hne : a ≠ off := by
      rcases h with h | h
      · omega
      · simp at h; omega
    have h2 : a < off + 1 ∨ (off + 1) + vs.length ≤ a := by
      rcases h with h | h
      · exact Or.inl (by omega)
      · simp at h; exact Or.inr (by omega)
    rw [writeBytes, ih _ _ h2]
    simp [hne]

/-- A byte-list store puts byte `j` of the value at address `off + j`. -/
theorem writeBytes_in (vs : List Nat) (reg : Nat → Nat) (off j : Nat)
    (h : j < vs.length) :
    writeBytes reg off vs (off + j) = vs.getD j 0 := by
  induction vs generalizing reg off j with
  | nil => simp at h
  | cons v vs ih =>
    cases j with
    | zero =>
      rw [Nat.add_zero, writeBytes, writeBytes_out _ _ _ _ (Or.inl (by omega))]
      simp
    | succ j =>
      have hj : j < vs.length := by simpa using h
      have haddr : off + (j + 1) = (off + 1) + j := by omega
      rw [writeBytes, haddr, ih _ _ _ hj]
      simp

/-- Recursion equation for the pack-expanded all-register store. -/
theorem forRegSetAll_cons (base : Nat) (v : List Nat) (vs : List (List Nat))
    (reg : Nat → Nat) :
    forRegSetAll base (v :: vs) reg =
      forRegSetAll (base + v.length) vs (writeBytes reg base v) := by
  unfold forRegSetAll
  rw [List.length_cons, List.range_succ_eq_map, List.foldl_cons, List.foldl_map]
  have hinit : writeBytes reg (base + offsetOf ((v :: vs).map List.length) 0)
      ((v :: vs).getD 0 []) = writeBytes reg base v := by
    rw [offsetOf_zero]
    simp [List.getD]
  rw [hinit]
  congr 1
  funext r i
  rw [List.map_cons, offsetOf_succ_cons]
  have : base + (v.length + offsetOf (vs.map List.length) i)
      = base + v.length + offsetOf (vs.map List.length) i := by omega
  rw [this]
  simp [List.getD]

/-- The all-register store does not touch addresses below its base. -/
theorem forRegSetAll_lower (args : List (List Nat)) :
    ∀ (base : Nat) (reg : Nat → Nat) (a : Nat), a < base →
      forRegSetAll base args reg a = reg a := by
  induction args with
  | nil => intro base reg a _; rfl
  | cons v vs ih =>
    intro base reg a h
    rw [forRegSetAll_cons, ih _ _ _ (by omega)]
    exact writeBytes_out v reg base a (Or.inl h)

/-- The all-register store does not touch addresses at or past the end of
its last interval. -/
theorem forRegSetAll_upper (args : List (List Nat)) :
    ∀ (base : Nat) (reg : Nat → Nat) (a : Nat),
      base + offsetOf (args.map List.length) args.length ≤ a →
      forRegSetAll base args reg a = reg a := by
  induction args with
  | nil => intro base reg a _; rfl
  | cons v vs ih =>
    intro base reg a h
    rw [List.map_cons, List.length_cons, offsetOf_succ_cons] at h
    rw [forRegSetAll_cons, ih _ _ _ (by omega)]
    exact writeBytes_out v reg base a (Or.inr (by omega))

/-- The all-register store puts byte `j` of value `i` at
`base + offset i + j`. -/
theorem forRegSetAll_read (args : List (List Nat)) :
    ∀ (base : Nat) (reg : Nat → Nat) (i j : Nat),
      i < args.length → j < (args.getD i []).length →
      forRegSetAll base args reg (base + offsetOf (args.map List.length) i + j) =
        (args.getD i []).getD j 0 := by
  induction args with
  | nil => intro base reg i j hi _; simp at hi
  | cons v vs ih =>
    intro base reg i j hi hj
    cases i with
    | zero =>
      have hjv : j < v.length := by simpa [List.getD] using hj
      rw [offsetOf_zero, Nat.add_zero, forRegSetAll_cons,
        forRegSetAll_lower _ _ _ _ (by omega)]
      rw [writeBytes_in v reg base j hjv]
      simp [List.getD]
    | succ n =>
      have hn : n < vs.length := by simpa using hi
      have hjn : j < (vs.getD n []).length := by simpa [List.getD] using hj
      have haddr : base + offsetOf ((v :: vs).map List.length) (n + 1) + j
          = (base + v.length) + offsetOf (vs.map List.length) n + j := by
        rw [List.map_cons, offsetOf_succ_cons]; omega
      rw [forRegSetAll_cons, haddr, ih _ _ _ _ hn hjn]
      simp [List.getD]

/-- A falsy-terminated run over an all-truthy chain records exactly a reset
followed by a run for every chain element, and stops at the sentinel. -/
theorem runWhileTruthy_append (before rest : List ScriptContainerBase)
    (hb : ∀ c ∈ before, c.toBool = true) :
    runWhileTruthy (before ++ ScriptContainerBase.mk [] :: rest) =
      (before.flatMap fun c => [WorkerAction.reset, WorkerAction.run c.proc],
        ScriptContainerBase.mk [] :: rest) := by
  induction before with
  | nil => simp [runWhileTruthy, ScriptContainerBase.toBool]
  | cons c cs ih =>
    have hc : c.toBool = true := hb c (by simp)
    have ih2 := ih (fun d hd => hb d (by simp [hd]))
    simp [runWhileTruthy, hc, ih2]

/-- C1: the compatibility score is NOT computed as the spec's case list.
For the editable-pointer-to-int kind `ArgSpecAdd ArgInt ArgSpecPtrE`
compared with itself at overload ordinal 0 the source returns 0 (its
sixth clause fires because the supplied kind is a pointer), while the
spec's case list gives the perfect score 255.  This also contradicts the
source's own doc comment: "255 if both types are same". -/
theorem argCompatible_ptrE_diverges_from_spec :
    ArgCompatible (ArgSpecAdd ArgInt ArgSpecPtrE) (ArgSpecAdd ArgInt ArgSpecPtrE) 0 = 0 ∧
    ArgCompatibleSpec (ArgSpecAdd ArgInt ArgSpecPtrE) (ArgSpecAdd ArgInt ArgSpecPtrE) 0 = 255 := by
  decide

/-- C2: property P1 fails for the editable-pointer flag combination.  For
the first registered host type (value `ArgMax`) decorated with
`ArgSpecPtrE`, self-compatibility at overload ordinal 0 is 0, not the
maximum score 255. -/
theorem selfCompat_ptrE_is_zero :
    ArgCompatible (ArgSpecAdd ArgMax ArgSpecPtrE) (ArgSpecAdd ArgMax ArgSpecPtrE) 0 = 0 ∧
    ArgCompatible (ArgSpecAdd ArgMax ArgSpecPtrE) (ArgSpecAdd ArgMax ArgSpecPtrE) 0 ≠ 255 := by
  decide

/-- C3 counterexample: an events-typed container whose own bytecode vector
is empty is still truthy, refuting "truthy iff the bytecode vector is
non-empty" for the events variant. -/
theorem eventsContainer_truthy_with_empty_proc :
    (ScriptContainerEventsBase.mk (ScriptContainerBase.mk []) none).toBool = true ∧
    (ScriptContainerEventsBase.mk (ScriptContainerBase.mk []) none).current.proc = [] :=
  ⟨rfl, rfl⟩

/-- C3 amended: the plain script container is truthy iff its bytecode
vector is non-empty (so a container whose compile failed, left empty, is
falsy), while the events variant is unconditionally truthy. -/
theorem container_truthiness :
    (∀ c : ScriptContainerBase, c.toBool = true ↔ c.proc ≠ []) ∧
    (∀ e : ScriptContainerEventsBase, e.toBool = true) := by
  refine ⟨fun c => ?_, fun e => rfl⟩
  cases c with
  | mk p => cases p <;> simp [ScriptContainerBase.toBool]

/-- C3 witness: the amended characterization evaluated on a one-byte
container. -/
theorem container_truthiness_witness :
    (ScriptContainerBase.mk [7]).toBool = true ↔ (ScriptContainerBase.mk [7]).proc ≠ [] :=
  container_truthiness.1 (ScriptContainerBase.mk [7])

/-- C4: executing an events-typed container (events array laid out as the
before chain, a falsy sentinel, the after chain, a falsy sentinel, all
chain members truthy) performs exactly: one copy-in of the caller's
output slots, then for each before event a reset of the read-only inputs
followed by its run, then a reset and the main run, then for each after
event a reset followed by its run, and a single copy-out at the very
end — so each event and the main script start from freshly reset inputs
and outputs reach the caller only once, at the end. -/
theorem executeEvents_trace (main : ScriptContainerBase)
    (before after : List ScriptContainerBase)
    (hb : ∀ c ∈ before, c.toBool = true)
    (ha : ∀ c ∈ after, c.toBool = true) :
    executeEvents ⟨main,
        some (before ++ ScriptContainerBase.mk [] :: (after ++ [ScriptContainerBase.mk []]))⟩ =
      [WorkerAction.set]
        ++ (before.flatMap fun c => [WorkerAction.reset, WorkerAction.run c.proc])
        ++ [WorkerAction.reset, WorkerAction.run main.proc]
        ++ (after.flatMap fun c => [WorkerAction.reset, WorkerAction.run c.proc])
        ++ [WorkerAction.get] := by
  have h1 := runWhileTruthy_append before (after ++ [ScriptContainerBase.mk []]) hb
  have h2 := runWhileTruthy_append after [] ha
  simp [executeEvents, h1, h2]

/-- C4 witness: concrete events container with one before event (bytecode
`[1]`), main bytecode `[3]` and one after event (bytecode `[2]`). -/
theorem executeEvents_trace_witness :
    executeEvents ⟨ScriptContainerBase.mk [3],
        some [ScriptContainerBase.mk [1], ScriptContainerBase.mk [],
          ScriptContainerBase.mk [2], ScriptContainerBase.mk []]⟩ =
      [WorkerAction.set, WorkerAction.reset, WorkerAction.run [1],
        WorkerAction.reset, WorkerAction.run [3],
        WorkerAction.reset, WorkerAction.run [2], WorkerAction.get] := by
  simpa using executeEvents_trace (ScriptContainerBase.mk [3])
    [ScriptContainerBase.mk [1]] [ScriptContainerBase.mk [2]] (by decide) (by decide)

/-- C5: after `updateBase` the register file holds each declared input
value at its allocated offset — the inputs laid out contiguously after
the output region (third conjunct shows the offsets are contiguous) —
and every byte not written by an input (in the zeroed output region
below the input area, or past the last input) is zero. -/
theorem updateBase_register_file (outSizes : List Nat) (args : List (List Nat))
    (i j a : Nat) (hi : i < args.length) (hj : j < (args.getD i []).length)
    (ha : a < offsetOutput outSizes ∨
      offsetOutput outSizes + offsetOf (args.map List.length) args.length ≤ a) :
    updateBase outSizes args
        (offsetOutput outSizes + offsetOf (args.map List.length) i + j) =
      (args.getD i []).getD j 0 ∧
    updateBase outSizes args a = 0 ∧
    offsetOf (args.map List.length) (i + 1) =
      offsetOf (args.map List.length) i + (args.getD i []).length := by
  refine ⟨forRegSetAll_read args _ _ i j hi hj, ?_, ?_⟩
  · unfold updateBase
    rcases ha with h | h
    · rw [forRegSetAll_lower args _ _ _ h]
    · rw [forRegSetAll_upper args _ _ _ h]
  · rw [offsetOf_succ (args.map List.length) i (by simpa using hi)]
    congr 1
    simpa using List.getD_map (n := i) (f := List.length) (l := args)
      (d := ([] : List Nat))

/-- C5 witness: two inputs of sizes 1 and 2 after a 4-byte output region;
byte 0 of the second input is found at its allocated offset, address 0
(inside the zeroed output region) reads 0, and offsets are contiguous. -/
theorem updateBase_register_file_witness :
    updateBase [4] [[7], [8, 9]]
        (offsetOutput [4] +
          offsetOf (([[7], [8, 9]] : List (List Nat)).map List.length) 1 + 0) =
      (([[7], [8, 9]] : List (List Nat)).getD 1 []).getD 0 0 ∧
    updateBase [4] [[7], [8, 9]] 0 = 0 ∧
    offsetOf (([[7], [8, 9]] : List (List Nat)).map List.length) (1 + 1) =
      offsetOf (([[7], [8, 9]] : List (List Nat)).map List.length) 1 +
        (([[7], [8, 9]] : List (List Nat)).getD 1 []).length :=
  updateBase_register_file [4] [[7], [8, 9]] 1 0 0 (by decide) (by decide)
    (Or.inl (by decide))

/-- C6: the typed execute call is exactly the set / executeBase / get
sequence: the final register file is the bytecode semantics applied to
the register file produced by `set` (first conjunct); `set` has copied
every caller output-slot value into the output region at its allocated
offset (second conjunct); and `get` hands back to the caller, for each
writable slot, the bytes of the post-run register file at the slot's
offset, leaving read-only slots untouched (third conjunct). -/
theorem executeContainer_effect (run : List Nat → (Nat → Nat) → (Nat → Nat))
    (c : ScriptContainerBase) (arg : List (Bool × List Nat)) (reg : Nat → Nat)
    (i j : Nat) (hi : i < arg.length)
    (hj : j < (arg.getD i (false, [])).2.length) :
    (executeContainer run c arg reg).2 = run c.proc (setRegs arg reg) ∧
    setRegs arg reg (offsetOf (arg.map fun s => s.2.length) i + j) =
      (arg.getD i (false, [])).2.getD j 0 ∧
    (executeContainer run c arg reg).1.getD i (false, []) =
      ((arg.getD i (false, [])).1,
        if (arg.getD i (false, [])).1 then
          readBytes (run c.proc (setRegs arg reg))
            (offsetOf (arg.map fun s => s.2.length) i)
            (arg.getD i (false, [])).2.length
        else (arg.getD i (false, [])).2) := by
  refine ⟨rfl, ?_, ?_⟩
  · have hlen : i < (arg.map Prod.snd).length := by simpa using hi
    have hgd : (arg.map Prod.snd).getD i [] = (arg.getD i (false, [])).2 := by
      simpa using List.getD_map (n := i) (f := Prod.snd) (l := arg)
        (d := ((false, []) : Bool × List Nat))
    have hj2 : j < ((arg.map Prod.snd).getD i []).length := by rw [hgd]; exact hj
    have hsz : (arg.map Prod.snd).map List.length = arg.map fun s => s.2.length := by
      rw [List.map_map]; rfl
    have hr := forRegSetAll_read (arg.map Prod.snd) 0 reg i j hlen hj2
    rw [hgd, hsz] at hr
    simpa [setRegs] using hr
  · unfold executeContainer getRegs
    rw [List.getD_eq_getElem _ _ (by simpa using hi)]
    simp

/-- C6 witness: a single writable output slot holding byte 5, run with
the identity bytecode semantics. -/
theorem executeContainer_effect_witness :
    (executeContainer (fun _ r => r) (ScriptContainerBase.mk [1])
        [(true, [5])] (fun _ => 0)).2 = setRegs [(true, [5])] (fun _ => 0) ∧
    setRegs [(true, [5])] (fun _ => 0)
        (offsetOf (([(true, [5])] : List (Bool × List Nat)).map
          fun s => s.2.length) 0 + 0) =
      (([(true, [5])] : List (Bool × List Nat)).getD 0 (false, [])).2.getD 0 0 ∧
    (executeContainer (fun _ r => r) (ScriptContainerBase.mk [1])
        [(true, [5])] (fun _ => 0)).1.getD 0 (false, []) =
      ((([(true, [5])] : List (Bool × List Nat)).getD 0 (false, [])).1,
        if (([(true, [5])] : List (Bool × List Nat)).getD 0 (false, [])).1 then
          readBytes (setRegs [(true, [5])] (fun _ => 0))
            (offsetOf (([(true, [5])] : List (Bool × List Nat)).map
              fun s => s.2.length) 0)
            (([(true, [5])] : List (Bool × List Nat)).getD 0 (false, [])).2.length
        else (([(true, [5])] : List (Bool × List Nat)).getD 0 (false, [])).2) :=
  executeContainer_effect (fun _ r => r) (ScriptContainerBase.mk [1])
    [(true, [5])] (fun _ => 0) 0 0 (by decide) (by decide)

/-- C9: `ScriptRef` comparison orders by length before content: two refs
are equal exactly when their byte sequences are identical (same length,
same bytes), and `a < b` exactly when `a` is shorter, or both have equal
length and `a` compares less under the bytewise `memcmp`. -/
theorem scriptRef_order (a b : List Nat) :
    (ScriptRef.beq a b = true ↔ a = b) ∧
    (ScriptRef.lt a b = true ↔
      (a.length < b.length ∨ (a.length = b.length ∧ memcmpSign a b < 0))) := by
  refine ⟨?_, ?_⟩
  · by_cases h : a.length = b.length
    · have hmz := memcmpSign_eq_zero_iff a b h
      simp [ScriptRef.beq, ScriptRef.compare, h, hmz]
    · have hne : a ≠ b := fun hab => h (by rw [hab])
      by_cases hlt : a.length < b.length <;>
        simp [ScriptRef.beq, ScriptRef.compare, h, hlt, hne]
  · by_cases h : a.length = b.length
    · simp [ScriptRef.lt, ScriptRef.compare, h]
    · by_cases hlt : a.length < b.length <;>
        simp [ScriptRef.lt, ScriptRef.compare, h, hlt]

/-- C9 witness: the ordering characterization evaluated on the concrete
refs `[9]` and `[1, 2]` (the shorter ref is smaller despite its larger
byte). -/
theorem scriptRef_order_witness :
    (ScriptRef.beq [9] [1, 2] = true ↔ [9] = [1, 2]) ∧
    (ScriptRef.lt [9] [1, 2] = true ↔
      (([9] : List Nat).length < ([1, 2] : List Nat).length ∨
        (([9] : List Nat).length = ([1, 2] : List Nat).length ∧
          memcmpSign [9] [1, 2] < 0))) :=
  scriptRef_order [9] [1, 2]

/-- C10: `substr` is total and in-bounds: for `p` at or past the end the
result is the empty (null) ref; otherwise the result starts at offset `p`
inside `r`, has length `min s (size - p)`, and its range stays inside
`r`. -/
theorem substr_total_inbounds (r : ScriptRefRange) (p s : Nat) (h : r.b ≤ r.e) :
    (p ≥ r.size → r.substr p s = ScriptRefRange.mk 0 0) ∧
    (p < r.size →
      (r.substr p s).b = r.b + p ∧
      (r.substr p s).size = min s (r.size - p) ∧
      r.b ≤ (r.substr p s).b ∧ (r.substr p s).e ≤ r.e) := by
  refine ⟨fun hp => ?_, fun hp => ?_⟩
  · simp only [ScriptRefRange.size] at hp
    simp [ScriptRefRange.substr, hp]
  · simp only [ScriptRefRange.size] at hp
    have hnp : ¬ (p ≥ r.e - r.b) := by omega
    by_cases hs : s > r.e - r.b - p <;>
      simp [ScriptRefRange.substr, ScriptRefRange.size, hnp, hs] <;> omega

/-- C10 witness: the in-bounds characterization evaluated on the range
`[10, 15)` with `p = 2`, `s = 99`. -/
theorem substr_total_inbounds_witness :
    (ScriptRefRange.mk 10 15).b ≤ (ScriptRefRange.mk 10 15).e ∧
    ((ScriptRefRange.mk 10 15).substr 2 99).size =
      min 99 ((ScriptRefRange.mk 10 15).size - 2) :=
  ⟨by decide,
    ((substr_total_inbounds (ScriptRefRange.mk 10 15) 2 99 (by decide)).2 (by decide)).2.1⟩

/-- C7 counterexample: for `T = const int&` — the reference-to-const type
`CppType.ref (CppObjType.val CppValueTy.int true)`, which is not a
non-const reference — `getArgType<T>` still sets the `var` flag, because
the source tests `info::isRef` alone. -/
theorem getArgType_var_on_const_ref :
    ArgIsVar (getArgType (CppType.ref (CppObjType.val CppValueTy.int true))) = true := by
  decide

set_option maxRecDepth 4000 in
/-- C7 amended: `getArgType<T>` sets the `var` flag exactly when `T` is a
reference type (const or not), and sets the `ptr_editable` flag exactly
when `T` decays to a pointer whose pointee is non-const. -/
theorem getArgType_flags (T : CppType) :
    (ArgIsVar (getArgType T) = true ↔ T.isReference = true) ∧
    (ArgIsPtrE (getArgType T) = true ↔
      ((TypeInfo.t1 T).isPointer = true ∧ (TypeInfo.t2 T).isConstQ = false)) := by
  revert T; decide

/-- C7 witness: the amended flag characterization evaluated at
`T = int&`. -/
theorem getArgType_flags_witness :
    (ArgIsVar (getArgType (CppType.ref (CppObjType.val CppValueTy.int false))) = true ↔
      (CppType.ref (CppObjType.val CppValueTy.int false)).isReference = true) ∧
    (ArgIsPtrE (getArgType (CppType.ref (CppObjType.val CppValueTy.int false))) = true ↔
      ((TypeInfo.t1 (CppType.ref (CppObjType.val CppValueTy.int false))).isPointer = true ∧
        (TypeInfo.t2 (CppType.ref (CppObjType.val CppValueTy.int false))).isConstQ = false)) :=
  getArgType_flags (CppType.ref (CppObjType.val CppValueTy.int false))

/-- C8: `getValue<T>` throws exactly when the stored tag differs from
`getArgType<T>` (first conjunct); otherwise it returns the stored bytes
(second conjunct: the result is either the throw or the stored value),
and a value constructed from `T` reads back unchanged under `T` without
throwing (third conjunct). -/
theorem scriptValueData_cast (T : CppType) (v : ScriptValueData) (bytes : List Nat) :
    (v.getValue T = Except.error "Invalid cast of value" ↔ v.type ≠ getArgType T) ∧
    (v.getValue T = Except.error "Invalid cast of value" ∨
      v.getValue T = Except.ok v.data) ∧
    (ScriptValueData.mkFrom T bytes).getValue T = Except.ok bytes := by
  refine ⟨?_, ?_, ?_⟩
  · by_cases h : v.type = getArgType T <;>
      simp [ScriptValueData.getValue, ScriptValueData.isValueType, h]
  · by_cases h : v.type = getArgType T <;>
      simp [ScriptValueData.getValue, ScriptValueData.isValueType, h]
  · simp [ScriptValueData.getValue, ScriptValueData.isValueType,
      ScriptValueData.mkFrom]

/-- C8 witness: the cast characterization evaluated on a concrete
4-byte `int` value. -/
theorem scriptValueData_cast_witness :
    ((ScriptValueData.mk [1, 0, 0, 0] ArgInt 4).getValue
        (CppType.obj (CppObjType.val CppValueTy.int false)) =
          Except.error "Invalid cast of value" ↔
      (ScriptValueData.mk [1, 0, 0, 0] ArgInt 4).type ≠
        getArgType (CppType.obj (CppObjType.val CppValueTy.int false))) ∧
    ((ScriptValueData.mk [1, 0, 0, 0] ArgInt 4).getValue
        (CppType.obj (CppObjType.val CppValueTy.int false)) =
          Except.error "Invalid cast of value" ∨
      (ScriptValueData.mk [1, 0, 0, 0] ArgInt 4).getValue
        (CppType.obj (CppObjType.val CppValueTy.int false)) =
          Except.ok (ScriptValueData.mk [1, 0, 0, 0] ArgInt 4).data) ∧
    (ScriptValueData.mkFrom (CppType.obj (CppObjType.val CppValueTy.int false))
        [1, 0, 0, 0]).getValue (CppType.obj (CppObjType.val CppValueTy.int false)) =
      Except.ok [1, 0, 0, 0] :=
  scriptValueData_cast (CppType.obj (CppObjType.val CppValueTy.int false))
    (ScriptValueData.mk [1, 0, 0, 0] ArgInt 4) [1, 0, 0, 0]

end OpenXcom
